import Mathlib

/-!
Verification of the email-thread vCon backend (`src/app.py`): the record
builder `create_email_thread_vcon`, the merge logic inside the POST handler
`generate_email_vcon`, and the GET handler `get_vcon_by_thread_id`, over a
shallow embedding of the store (one row per thread id).
-/

namespace VconApp

/-- Python `datetime.datetime`: civil fields plus an optional fixed UTC
offset in minutes (`none` = naive datetime). -/
structure PyDateTime where
  year : Nat
  month : Nat
  day : Nat
  hour : Nat
  minute : Nat
  second : Nat
  microsecond : Nat
  tzOffsetMinutes : Option Int
  deriving DecidableEq

/-- Decimal rendering of `n`, left-padded with zeros to width `w`. -/
def padNum (w : Nat) (n : Nat) : String :=
  let s := toString n
  if s.length < w then String.mk (List.replicate (w - s.length) '0') ++ s else s

/-- Python `datetime.isoformat()`: `YYYY-MM-DDTHH:MM:SS[.ffffff][±HH:MM]`,
with the fractional part only when `microsecond ≠ 0` and the offset only on
aware datetimes. -/
def isoformat (dt : PyDateTime) : String :=
  let date := padNum 4 dt.year ++ "-" ++ padNum 2 dt.month ++ "-" ++ padNum 2 dt.day
  let time := padNum 2 dt.hour ++ ":" ++ padNum 2 dt.minute ++ ":" ++ padNum 2 dt.second
  let frac := if dt.microsecond = 0 then "" else "." ++ padNum 6 dt.microsecond
  let off :=
    match dt.tzOffsetMinutes with
    | none => ""
    | some o =>
      let sign := if o < 0 then "-" else "+"
      let a := o.natAbs
      sign ++ padNum 2 (a / 60) ++ ":" ++ padNum 2 (a % 60)
  date ++ "T" ++ time ++ frac ++ off

/-- Python `dt.replace(tzinfo=datetime.timezone.utc)`: the wall-clock fields
are kept and the offset is overwritten with `+00:00`; no instant conversion
is performed. -/
def replaceTzUtc (dt : PyDateTime) : PyDateTime :=
  { dt with tzOffsetMinutes := some 0 }

/-- Days from civil date (proleptic Gregorian), days relative to 1970-01-01. -/
def daysFromCivil (y m d : Int) : Int :=
  let y2 := y - (if m ≤ 2 then 1 else 0)
  let era := Int.ediv y2 400
  let yoe := y2 - era * 400
  let mp := Int.emod (m + 9) 12
  let doy := Int.ediv (153 * mp + 2) 5 + d - 1
  let doe := yoe * 365 + Int.ediv yoe 4 - Int.ediv yoe 100 + doy
  era * 146097 + doe - 719468

/-- Civil date from days relative to 1970-01-01. -/
def civilFromDays (z0 : Int) : Int × Int × Int :=
  let z := z0 + 719468
  let era := Int.ediv z 146097
  let doe := z - era * 146097
  let yoe := Int.ediv (doe - Int.ediv doe 1460 + Int.ediv doe 36524 - Int.ediv doe 146096) 365
  let y := yoe + era * 400
  let doy := doe - (365 * yoe + Int.ediv yoe 4 - Int.ediv yoe 100)
  let mp := Int.ediv (5 * doy + 2) 153
  let d := doy - Int.ediv (153 * mp + 2) 5 + 1
  let m := mp + (if mp < 10 then 3 else -9)
  (y + (if m ≤ 2 then 1 else 0), m, d)

/-- Microseconds of the wall-clock fields since the epoch, ignoring the
offset. -/
def naiveMicros (dt : PyDateTime) : Int :=
  daysFromCivil (dt.year : Int) (dt.month : Int) (dt.day : Int) * 86400000000
    + ((dt.hour : Int) * 3600 + (dt.minute : Int) * 60 + (dt.second : Int)) * 1000000
    + (dt.microsecond : Int)

/-- The instant a datetime denotes, in microseconds since the epoch; a naive
datetime is read as UTC. -/
def epochMicros (dt : PyDateTime) : Int :=
  naiveMicros dt - (dt.tzOffsetMinutes.getD 0) * 60000000

/-- Modelled from the spec: "the supplied timestamp normalized to UTC",
denoting the same instant expressed with a `+00:00` offset (what Python
`astimezone(timezone.utc)` would compute). Used only to compare the spec's
claimed normalization with the source's `replace(tzinfo=utc)`. -/
def utcNormalize (dt : PyDateTime) : PyDateTime :=
  let e := epochMicros dt
  let days := Int.ediv e 86400000000
  let rem := Int.emod e 86400000000
  let c := civilFromDays days
  let secs := Int.ediv rem 1000000
  let us := Int.emod rem 1000000
  { year := c.1.toNat, month := c.2.1.toNat, day := c.2.2.toNat,
    hour := (Int.ediv secs 3600).toNat,
    minute := (Int.emod (Int.ediv secs 60) 60).toNat,
    second := (Int.emod secs 60).toNat,
    microsecond := us.toNat,
    tzOffsetMinutes := some 0 }

/-- One entry of the request's `dialogs` list (`DialogIn` in `app.py`). -/
structure DialogIn where
  originator_index : Int
  body_snippet : String
  last_modified : PyDateTime
  deriving DecidableEq

/-- The POST body (`EmailThreadRequest` in `app.py`). -/
structure EmailThreadRequest where
  thread_id : String
  parties : List String
  dialogs : List DialogIn
  deriving DecidableEq

/-- A party descriptor as stored in the record's `parties` list. -/
structure Party where
  email : String
  deriving DecidableEq

/-- A message entry of the record's `dialog` list. `metadata`/`meta` are
`some []` (present, empty dict) on entries appended during a merge and
`none` (absent) on entries created by the builder. -/
structure DialogEntry where
  type : String
  start : String
  parties : List Nat
  originator : Int
  mimetype : String
  body : String
  metadata : Option (List (String × String))
  meta : Option (List (String × String))
  deriving DecidableEq

/-- The persisted conversation record (`vcon` JSON column content). -/
structure VconRecord where
  thread_id : String
  parties : List Party
  dialog : List DialogEntry
  deriving DecidableEq

/-- `dlg.last_modified.replace(tzinfo=utc).isoformat()` as computed in both
`create_email_thread_vcon` and the merge loop. -/
def normStart (dlg : DialogIn) : String :=
  isoformat (replaceTzUtc dlg.last_modified)

/-- `create_email_thread_vcon` from `app.py`: every email becomes a party in
input order; every dialog entry becomes a text message addressed to the full
initial party index range. -/
def create_email_thread_vcon (req : EmailThreadRequest) : VconRecord :=
  { thread_id := req.thread_id
    parties := req.parties.map fun e => ⟨e⟩
    dialog := req.dialogs.map fun dlg =>
      { type := "text"
        start := normStart dlg
        parties := List.range req.parties.length
        originator := dlg.originator_index
        mimetype := "text/plain"
        body := dlg.body_snippet
        metadata := none
        meta := none } }

/-- The `existing_bodies` dict of the merge: index of the entry with key
`(body, start)`, the last occurrence winning (Python dict comprehension
semantics). -/
def dialogKeyIdx : List DialogEntry → String → String → Option Nat
  | [], _, _ => none
  | d :: rest, b, s =>
    match dialogKeyIdx rest b s with
    | some i => some (i + 1)
    | none => if d.body = b ∧ d.start = s then some 0 else none

/-- `existing_dialogs[idx]["body"] = ...; existing_dialogs[idx]["start"] = ...`:
overwrite the `body` and `start` fields of the entry at index `i`. -/
def updateAt : List DialogEntry → Nat → String → String → List DialogEntry
  | [], _, _, _ => []
  | d :: rest, 0, b, s => { d with body := b, start := s } :: rest
  | d :: rest, n + 1, b, s => d :: updateAt rest n b s

/-- The new message dict appended in the merge's else-branch, with `parties`
populated from the current (post-party-merge) party count. -/
def newMergeDialog (nParties : Nat) (dlg : DialogIn) : DialogEntry :=
  { type := "text"
    start := normStart dlg
    parties := List.range nParties
    originator := dlg.originator_index
    mimetype := "text/plain"
    body := dlg.body_snippet
    metadata := some []
    meta := some [] }

/-- One iteration of the merge's dialog loop: the lookup dict `frozen` was
built once before the loop and is never refreshed. -/
def mergeDialogStep (frozen : List DialogEntry) (nParties : Nat)
    (cur : List DialogEntry) (dlg : DialogIn) : List DialogEntry :=
  match dialogKeyIdx frozen dlg.body_snippet (normStart dlg) with
  | some i => updateAt cur i dlg.body_snippet (normStart dlg)
  | none => cur ++ [newMergeDialog nParties dlg]

/-- The party merge: each incoming email is checked against the emails
present before this request only, so within-batch duplicates are all
appended. -/
def mergeParties (existing : List Party) (incoming : List String) : List Party :=
  existing ++ (incoming.filter fun e => decide (e ∉ existing.map Party.email)).map fun e => ⟨e⟩

/-- The merge branch of `generate_email_vcon` (lines 105-151 of `app.py`). -/
def mergeVcon (existing : VconRecord) (req : EmailThreadRequest) : VconRecord :=
  let parties2 := mergeParties existing.parties req.parties
  let dialog2 := req.dialogs.foldl (mergeDialogStep existing.dialog parties2.length) existing.dialog
  { existing with parties := parties2, dialog := dialog2 }

/-- The relational store: rows `(threadId, vcon)`; `query(...).first()` takes
the first row whose `threadId` matches. -/
abbrev Store := List (String × VconRecord)

/-- `db.query(Conversation).filter(Conversation.threadId == tid).first()`. -/
def findConv (db : Store) (tid : String) : Option VconRecord :=
  (db.find? fun p => decide (p.1 = tid)).map Prod.snd

/-- Commit of an in-place mutation of the matched row: the first row with
this thread id gets the new record, the rest of the store is untouched. -/
def replaceConv : Store → String → VconRecord → Store
  | [], _, _ => []
  | (t, r) :: rest, tid, v =>
    if t = tid then (t, v) :: rest else (t, r) :: replaceConv rest tid v

/-- The POST handler `generate_email_vcon`: merge into the existing row if
one exists, otherwise insert the builder's record; returns the updated store
and the stored record. -/
def generate_email_vcon (db : Store) (req : EmailThreadRequest) : Store × VconRecord :=
  match findConv db req.thread_id with
  | some existing =>
    let merged := mergeVcon existing req
    (replaceConv db req.thread_id merged, merged)
  | none =>
    let created := create_email_thread_vcon req
    (db ++ [(req.thread_id, created)], created)

/-- An HTTP error response (`HTTPException`): status code and `detail` body. -/
structure HTTPError where
  status : Nat
  detail : String
  deriving DecidableEq

/-- The GET handler `get_vcon_by_thread_id`: a pure read; the store is
returned unchanged alongside the outcome. -/
def get_vcon_by_thread_id (db : Store) (tid : String) :
    Store × Except HTTPError VconRecord :=
  match findConv db tid with
  | some v => (db, Except.ok v)
  | none => (db, Except.error ⟨404, "Conversation not found"⟩)

/-- The store after one POST request. -/
def upsertStore (db : Store) (req : EmailThreadRequest) : Store :=
  (generate_email_vcon db req).1

/-- The store after a sequence of POST requests starting from an empty
store. -/
def runRequests (reqs : List EmailThreadRequest) : Store :=
  reqs.foldl upsertStore []

/-- Append a value unless it is already present. -/
def insertNew (acc : List String) (e : String) : List String :=
  if e ∈ acc then acc else acc ++ [e]

/-- Order in which distinct values first occur in a list. -/
def firstSeenDistinct (l : List String) : List String :=
  l.foldl insertNew []

/-- All emails submitted across a sequence of requests, in submission
order. -/
def allParties (reqs : List EmailThreadRequest) : List String :=
  (reqs.map EmailThreadRequest.parties).flatten

/-- The party merge on the email level. -/
def mergeEmails (seen : List String) (batch : List String) : List String :=
  seen ++ batch.filter fun e => decide (e ∉ seen)

theorem dialogKeyIdx_get {ds : List DialogEntry} {b s : String} {i : Nat}
    (h : dialogKeyIdx ds b s = some i) :
    ∃ hlt : i < ds.length, (ds.get ⟨i, hlt⟩).body = b ∧ (ds.get ⟨i, hlt⟩).start = s := by
  induction ds generalizing i with
  | nil => simp [dialogKeyIdx] at h
  | cons d rest ih =>
    rw [dialogKeyIdx] at h
    cases hrec : dialogKeyIdx rest b s with
    | some j =>
      rw [hrec] at h
      obtain rfl : j + 1 = i := by simpa using h
      obtain ⟨hlt, hb, hs⟩ := ih hrec
      exact ⟨Nat.succ_lt_succ hlt, hb, hs⟩
    | none =>
      rw [hrec] at h
      by_cases hc : d.body = b ∧ d.start = s
      · rw [if_pos hc] at h
        obtain rfl : 0 = i := by simpa using h
        exact ⟨Nat.succ_pos _, hc.1, hc.2⟩
      · rw [if_neg hc] at h
        exact absurd h (by simp)

theorem updateAt_eq_self : ∀ (ds : List DialogEntry) (i : Nat) (b s : String)
    (hlt : i < ds.length), (ds.get ⟨i, hlt⟩).body = b → (ds.get ⟨i, hlt⟩).start = s →
    updateAt ds i b s = ds
  | [], i, _, _, hlt => by simp at hlt
  | d :: rest, 0, b, s, hlt => by
    intro hb hs
    simp only [List.get] at hb hs
    subst hb; subst hs
    rfl
  | d :: rest, i + 1, b, s, hlt => by
    intro hb hs
    simp only [List.get] at hb hs
    have := updateAt_eq_self rest i b s (Nat.lt_of_succ_lt_succ hlt) hb hs
    simp [updateAt, this]

theorem updateAt_append : ∀ (ds ex : List DialogEntry) (i : Nat) (b s : String),
    i < ds.length → updateAt (ds ++ ex) i b s = updateAt ds i b s ++ ex
  | [], _, i, _, _, h => by simp at h
  | d :: rest, ex, 0, b, s, _ => rfl
  | d :: rest, ex, i + 1, b, s, h => by
    have := updateAt_append rest ex i b s (Nat.lt_of_succ_lt_succ h)
    simp [updateAt, this]

theorem mergeDialogStep_invariant (frozen : List DialogEntry) (n : Nat)
    (extra : List DialogEntry) (dlg : DialogIn) :
    mergeDialogStep frozen n (frozen ++ extra) dlg
      = frozen ++ (extra ++ (if (dialogKeyIdx frozen dlg.body_snippet (normStart dlg)).isNone
          then [newMergeDialog n dlg] else [])) := by
  unfold mergeDialogStep
  cases hk : dialogKeyIdx frozen dlg.body_snippet (normStart dlg) with
  | none => simp
  | some i =>
    obtain ⟨hlt, hb, hs⟩ := dialogKeyIdx_get hk
    dsimp only
    rw [updateAt_append _ _ _ _ _ hlt, updateAt_eq_self _ _ _ _ hlt hb hs]
    simp

theorem dialog_foldl_spec (dlgs : List DialogIn) (frozen : List DialogEntry) (n : Nat)
    (extra : List DialogEntry) :
    dlgs.foldl (mergeDialogStep frozen n) (frozen ++ extra)
      = frozen ++ extra ++ (dlgs.filter fun dlg =>
          (dialogKeyIdx frozen dlg.body_snippet (normStart dlg)).isNone).map
            (newMergeDialog n) := by
  induction dlgs generalizing extra with
  | nil => simp
  | cons dlg rest ih =>
    rw [List.foldl_cons, mergeDialogStep_invariant]
    rw [ih (extra ++ _)]
    cases hk : (dialogKeyIdx frozen dlg.body_snippet (normStart dlg)).isNone with
    | true => simp [List.filter_cons, hk, List.append_assoc]
    | false => simp [List.filter_cons, hk]

theorem mergeVcon_parties (e : VconRecord) (r : EmailThreadRequest) :
    (mergeVcon e r).parties = mergeParties e.parties r.parties := rfl

theorem mergeVcon_dialog (e : VconRecord) (r : EmailThreadRequest) :
    (mergeVcon e r).dialog = e.dialog ++ (r.dialogs.filter fun dlg =>
      (dialogKeyIdx e.dialog dlg.body_snippet (normStart dlg)).isNone).map
        (newMergeDialog (mergeParties e.parties r.parties).length) := by
  have h := dialog_foldl_spec r.dialogs e.dialog (mergeParties e.parties r.parties).length []
  simp only [List.append_nil] at h
  exact h

/-- Naive timestamp 2024-01-01T00:00:00 used by the concrete scenarios. -/
def dtNaive : PyDateTime := ⟨2024, 1, 1, 0, 0, 0, 0, none⟩

/-- C1: in a merge, each incoming dialog entry whose `(body_snippet,
normalized start)` key matches the `(body, start)` key of an existing message
overwrites that message in place (the dialog list is the old list followed
only by the unmatched entries, and the matched message's `body`/`start`
equal the incoming values); each entry whose key matches no existing message
appends exactly one new message. -/
theorem merge_dialog_upsert_by_key (e : VconRecord) (r : EmailThreadRequest) :
    ((mergeVcon e r).dialog = e.dialog ++ (r.dialogs.filter fun dlg =>
        (dialogKeyIdx e.dialog dlg.body_snippet (normStart dlg)).isNone).map
          (newMergeDialog (mergeParties e.parties r.parties).length)) ∧
    ∀ dlg ∈ r.dialogs, ∀ i,
      dialogKeyIdx e.dialog dlg.body_snippet (normStart dlg) = some i →
      ∃ h : i < (mergeVcon e r).dialog.length,
        ((mergeVcon e r).dialog.get ⟨i, h⟩).body = dlg.body_snippet ∧
        ((mergeVcon e r).dialog.get ⟨i, h⟩).start = normStart dlg := by
  refine ⟨mergeVcon_dialog e r, ?_⟩
  intro dlg _ i hk
  obtain ⟨hlt, hb, hs⟩ := dialogKeyIdx_get hk
  have hlen : i < (mergeVcon e r).dialog.length := by
    rw [mergeVcon_dialog, List.length_append]
    exact Nat.lt_of_lt_of_le hlt (Nat.le_add_right _ _)
  have hget : (mergeVcon e r).dialog.get ⟨i, hlen⟩ = e.dialog.get ⟨i, hlt⟩ := by
    have := mergeVcon_dialog e r
    rw [List.get_of_eq this]
    simp [List.getElem_append, hlt]
  exact ⟨hlen, by rw [hget]; exact hb, by rw [hget]; exact hs⟩

/-- Stored record used as the pre-existing state in witnesses. -/
def wRecord : VconRecord :=
  { thread_id := "w"
    parties := [⟨"a@x.com"⟩]
    dialog := [{ type := "text", start := "2024-01-01T00:00:00+00:00", parties := [0],
                 originator := 0, mimetype := "text/plain", body := "hi",
                 metadata := none, meta := none }] }

/-- Request whose single dialog entry key-matches `wRecord`'s message. -/
def wReq : EmailThreadRequest := ⟨"w", ["a@x.com"], [⟨0, "hi", dtNaive⟩]⟩

theorem merge_dialog_upsert_by_key_witness :
    ∃ h : 0 < (mergeVcon wRecord wReq).dialog.length,
      ((mergeVcon wRecord wReq).dialog.get ⟨0, h⟩).body = "hi" ∧
      ((mergeVcon wRecord wReq).dialog.get ⟨0, h⟩).start = normStart ⟨0, "hi", dtNaive⟩ :=
  (merge_dialog_upsert_by_key wRecord wReq).2 ⟨0, "hi", dtNaive⟩ (by decide) 0 (by decide)

/-- C6: a merge is non-destructive: the previously stored parties form the
prefix of the merged party list (every descriptor keeps its index), and the
dialog list never shrinks. -/
theorem merge_nondestructive (e : VconRecord) (r : EmailThreadRequest) :
    (mergeVcon e r).parties.take e.parties.length = e.parties ∧
    e.dialog.length ≤ (mergeVcon e r).dialog.length := by
  constructor
  · rw [mergeVcon_parties]
    exact List.take_left _ _
  · rw [mergeVcon_dialog, List.length_append]
    exact Nat.le_add_right _ _

/-- C7: every message appended during a merge has `type` "text", `mimetype`
"text/plain", `parties` the full index range of the participant list after
this request's participant merge, `originator` the incoming index verbatim,
and empty `metadata`/`meta` objects. -/
theorem appended_dialog_fields (e : VconRecord) (r : EmailThreadRequest) :
    (mergeVcon e r).dialog.drop e.dialog.length
      = (r.dialogs.filter fun dlg =>
          (dialogKeyIdx e.dialog dlg.body_snippet (normStart dlg)).isNone).map
          fun dlg =>
            { type := "text"
              start := normStart dlg
              parties := List.range (mergeVcon e r).parties.length
              originator := dlg.originator_index
              mimetype := "text/plain"
              body := dlg.body_snippet
              metadata := some []
              meta := some [] } := by
  rw [mergeVcon_dialog, List.drop_left]
  rfl

/-- C9: a merge leaves every pre-existing message entirely unchanged at its
index: overwriting a matched message assigns it only its own `body`/`start`
values (the key equality forces them equal), and unmatched pre-existing
messages are untouched, so late-joining participants never retroactively
appear in earlier messages' `parties`. -/
theorem merge_preserves_existing_dialogs (e : VconRecord) (r : EmailThreadRequest) :
    (mergeVcon e r).dialog.take e.dialog.length = e.dialog := by
  rw [mergeVcon_dialog]
  exact List.take_left _ _

/-- First POST of the concrete scenario. -/
def scenarioReq1 : EmailThreadRequest := ⟨"t1", ["a@x.com", "b@x.com"], [⟨0, "hi", dtNaive⟩]⟩

/-- Second POST: overlapping parties, identical dialog entry. -/
def scenarioReq2 : EmailThreadRequest := ⟨"t1", ["b@x.com", "c@x.com"], [⟨0, "hi", dtNaive⟩]⟩

/-- Third POST: same except a different `body_snippet`. -/
def scenarioReq3 : EmailThreadRequest := ⟨"t1", ["b@x.com", "c@x.com"], [⟨0, "hello", dtNaive⟩]⟩

/-- C2: the three-POST scenario: first POST yields 2 parties and 1 dialog
entry with `start` `2024-01-01T00:00:00+00:00`; the second yields 3 parties
in order a, b, c and still 1 dialog entry; the third yields 2 dialog
entries. -/
theorem concrete_three_post_scenario :
    (generate_email_vcon [] scenarioReq1).2.parties.length = 2 ∧
    (generate_email_vcon [] scenarioReq1).2.dialog.map DialogEntry.start
      = ["2024-01-01T00:00:00+00:00"] ∧
    (generate_email_vcon (upsertStore [] scenarioReq1) scenarioReq2).2.parties.map Party.email
      = ["a@x.com", "b@x.com", "c@x.com"] ∧
    (generate_email_vcon (upsertStore [] scenarioReq1) scenarioReq2).2.dialog.length = 1 ∧
    (generate_email_vcon (upsertStore (upsertStore [] scenarioReq1) scenarioReq2)
        scenarioReq3).2.dialog.length = 2 := by
  decide

/-- C8: fetching an unknown thread id returns the 404 error with detail
"Conversation not found" and leaves the store unchanged. -/
theorem get_unknown_thread_not_found (db : Store) (tid : String)
    (h : findConv db tid = none) :
    get_vcon_by_thread_id db tid
      = (db, Except.error ⟨404, "Conversation not found"⟩) := by
  unfold get_vcon_by_thread_id
  rw [h]

theorem get_unknown_thread_not_found_witness :
    get_vcon_by_thread_id [] "missing"
      = ([], Except.error ⟨404, "Conversation not found"⟩) :=
  get_unknown_thread_not_found [] "missing" rfl

/-- POST body with an empty parties list. -/
def emptyPartiesReq : EmailThreadRequest := ⟨"t0", [], [⟨0, "hi", dtNaive⟩]⟩

/-- C10: a request with an empty parties list is processed, creating a
record with no parties whose dialog entries carry an empty parties index
range. -/
theorem empty_parties_accepted :
    (generate_email_vcon [] emptyPartiesReq).2.parties = [] ∧
    (generate_email_vcon [] emptyPartiesReq).2.dialog.map DialogEntry.parties = [[]] := by
  decide

theorem upsertStore_none {db : Store} {req : EmailThreadRequest}
    (hf : findConv db req.thread_id = none) :
    upsertStore db req = db ++ [(req.thread_id, create_email_thread_vcon req)] := by
  unfold upsertStore generate_email_vcon
  rw [hf]

theorem upsertStore_some {db : Store} {req : EmailThreadRequest} {v : VconRecord}
    (hf : findConv db req.thread_id = some v) :
    upsertStore db req = replaceConv db req.thread_id (mergeVcon v req) := by
  unfold upsertStore generate_email_vcon
  rw [hf]

theorem emails_map_mk : ∀ l : List String,
    (l.map fun e => (⟨e⟩ : Party)).map Party.email = l
  | [] => rfl
  | e :: rest => by rw [List.map_cons, List.map_cons, emails_map_mk rest]

theorem create_parties_emails (req : EmailThreadRequest) :
    (create_email_thread_vcon req).parties.map Party.email = req.parties :=
  emails_map_mk req.parties

theorem mergeParties_emails (ex : List Party) (inc : List String) :
    (mergeParties ex inc).map Party.email = mergeEmails (ex.map Party.email) inc := by
  unfold mergeParties mergeEmails
  rw [List.map_append, emails_map_mk]

theorem mergeEmails_nodup {seen batch : List String}
    (h1 : seen.Nodup) (h2 : batch.Nodup) : (mergeEmails seen batch).Nodup := by
  refine List.Nodup.append h1 (List.Nodup.filter _ h2) ?_
  intro a ha hfa
  exact absurd ha (of_decide_eq_true (List.mem_filter.1 hfa).2)

/-- Invariant: every record in the store has duplicate-free party emails. -/
def storeNodup (db : Store) : Prop :=
  ∀ p ∈ db, (p.2.parties.map Party.email).Nodup

theorem findConv_mem {db : Store} {tid : String} {v : VconRecord}
    (h : findConv db tid = some v) : ∃ t, (t, v) ∈ db := by
  unfold findConv at h
  obtain ⟨p, hp, hv⟩ := Option.map_eq_some'.1 h
  subst hv
  exact ⟨p.1, List.mem_of_find?_eq_some hp⟩

theorem replaceConv_mem {db : Store} {tid : String} {v : VconRecord}
    {p : String × VconRecord} (h : p ∈ replaceConv db tid v) : p ∈ db ∨ p.2 = v := by
  induction db with
  | nil => simp [replaceConv] at h
  | cons q rest ih =>
    obtain ⟨t, r⟩ := q
    by_cases ht : t = tid
    · rw [replaceConv, if_pos ht] at h
      rcases List.mem_cons.1 h with h | h
      · right; rw [h]
      · left; exact List.mem_cons_of_mem _ h
    · rw [replaceConv, if_neg ht] at h
      rcases List.mem_cons.1 h with h | h
      · left; rw [h]; exact List.mem_cons_self _ _
      · rcases ih h with h | h
        · left; exact List.mem_cons_of_mem _ h
        · right; exact h

theorem upsertStore_nodup {db : Store} {req : EmailThreadRequest}
    (hdb : storeNodup db) (hreq : req.parties.Nodup) :
    storeNodup (upsertStore db req) := by
  cases hf : findConv db req.thread_id with
  | none =>
    rw [upsertStore_none hf]
    intro p hp
    rcases List.mem_append.1 hp with h | h
    · exact hdb p h
    · have hpe : p = (req.thread_id, create_email_thread_vcon req) := by simpa using h
      rw [hpe]
      rw [show (req.thread_id, create_email_thread_vcon req).2 = create_email_thread_vcon req
        from rfl, create_parties_emails]
      exact hreq
  | some v =>
    rw [upsertStore_some hf]
    intro p hp
    rcases replaceConv_mem hp with h | h
    · exact hdb p h
    · rw [h, mergeVcon_parties, mergeParties_emails]
      obtain ⟨t, htm⟩ := findConv_mem hf
      exact mergeEmails_nodup (hdb (t, v) htm) hreq

theorem run_aux_nodup : ∀ (reqs : List EmailThreadRequest) (db : Store),
    storeNodup db → (∀ q ∈ reqs, q.parties.Nodup) →
    storeNodup (reqs.foldl upsertStore db)
  | [], _, hdb, _ => hdb
  | q :: rest, db, hdb, hall => by
    rw [List.foldl_cons]
    exact run_aux_nodup rest _ (upsertStore_nodup hdb (hall q (List.mem_cons_self _ _)))
      (fun r hr => hall r (List.mem_cons_of_mem _ hr))

/-- Request whose parties list repeats the same email. -/
def dupReq : EmailThreadRequest := ⟨"td", ["a@x.com", "a@x.com"], []⟩

/-- C3 counterexample: one upsert whose parties list repeats an email yields
a stored record with two party descriptors for the same email, refuting the
uniqueness invariant as stated. -/
theorem duplicate_party_counterexample :
    ((runRequests [dupReq]).map fun p => p.2.parties.map Party.email)
        = [["a@x.com", "a@x.com"]] ∧
    ¬ ∀ p ∈ runRequests [dupReq], (p.2.parties.map Party.email).Nodup := by
  decide

/-- C3 (amended): for every store reachable by upsert requests whose parties
lists are internally duplicate-free, no record holds two party descriptors
with the same email; in particular upserting the same email in two separate
requests yields exactly one descriptor for it. -/
theorem party_emails_nodup_of_nodup_requests (reqs : List EmailThreadRequest)
    (h : ∀ q ∈ reqs, q.parties.Nodup) :
    ∀ p ∈ runRequests reqs, (p.2.parties.map Party.email).Nodup :=
  run_aux_nodup reqs [] (fun p hp => absurd hp (List.not_mem_nil p)) h

theorem party_emails_nodup_witness :
    (((generate_email_vcon [] scenarioReq1).2.parties).map Party.email).Nodup :=
  party_emails_nodup_of_nodup_requests [scenarioReq1] (by decide)
    ("t1", (generate_email_vcon [] scenarioReq1).2) (by decide)

theorem mergeEmails_nil_left (b : List String) : mergeEmails [] b = b := by
  unfold mergeEmails
  rw [List.nil_append]
  exact List.filter_eq_self.2 fun a _ => by simp

theorem foldl_mergeVcon_emails : ∀ (reqs : List EmailThreadRequest) (r : VconRecord),
    ((reqs.foldl mergeVcon r).parties.map Party.email)
      = (reqs.map EmailThreadRequest.parties).foldl mergeEmails (r.parties.map Party.email)
  | [], _ => rfl
  | q :: rest, r => by
    rw [List.foldl_cons, List.map_cons, List.foldl_cons, foldl_mergeVcon_emails rest]
    rw [show (mergeVcon r q).parties.map Party.email
        = mergeEmails (r.parties.map Party.email) q.parties
      from by rw [mergeVcon_parties, mergeParties_emails]]

theorem store_shape : ∀ (reqs : List EmailThreadRequest) (tid : String) (r : VconRecord),
    (∀ q ∈ reqs, q.thread_id = tid) →
    reqs.foldl upsertStore [(tid, r)] = [(tid, reqs.foldl mergeVcon r)]
  | [], _, _, _ => rfl
  | q :: rest, tid, r, hall => by
    rw [List.foldl_cons, List.foldl_cons]
    have htid : q.thread_id = tid := hall q (List.mem_cons_self _ _)
    have hf : findConv [(tid, r)] q.thread_id = some r := by
      rw [htid]; simp [findConv]
    rw [upsertStore_some hf, htid]
    rw [show replaceConv [(tid, r)] tid (mergeVcon r q) = [(tid, mergeVcon r q)]
      from by simp [replaceConv]]
    exact store_shape rest tid _ fun p hp => hall p (List.mem_cons_of_mem _ hp)

theorem mergeEmails_batch_insert : ∀ (b : List String) (seen : List String), b.Nodup →
    mergeEmails seen b = b.foldl insertNew seen
  | [], seen, _ => by simp [mergeEmails]
  | e :: rest, seen, hnd => by
    rw [List.foldl_cons]
    by_cases he : e ∈ seen
    · rw [show mergeEmails seen (e :: rest) = mergeEmails seen rest
        from by simp [mergeEmails, List.filter_cons, he]]
      rw [insertNew, if_pos he]
      exact mergeEmails_batch_insert rest seen (List.nodup_cons.1 hnd).2
    · have hrest : rest.filter (fun x => decide (x ∉ seen))
          = rest.filter (fun x => decide (x ∉ seen ++ [e])) := by
        refine List.filter_congr ?_
        intro x hx
        have hxe : x ≠ e := fun hcon => (List.nodup_cons.1 hnd).1 (hcon ▸ hx)
        rw [decide_eq_decide]
        simp [List.mem_append, hxe]
      rw [show mergeEmails seen (e :: rest)
            = seen ++ e :: rest.filter (fun x => decide (x ∉ seen))
        from by simp [mergeEmails, List.filter_cons, he]]
      rw [insertNew, if_neg he, hrest,
        ← mergeEmails_batch_insert rest (seen ++ [e]) (List.nodup_cons.1 hnd).2]
      unfold mergeEmails
      simp

theorem batches_foldl_insert : ∀ (bs : List (List String)) (seen : List String),
    (∀ b ∈ bs, b.Nodup) →
    bs.foldl mergeEmails seen = bs.flatten.foldl insertNew seen
  | [], _, _ => by simp
  | b :: rest, seen, hall => by
    rw [List.foldl_cons, List.flatten_cons, List.foldl_append]
    rw [mergeEmails_batch_insert b seen (hall b (List.mem_cons_self _ _))]
    exact batches_foldl_insert rest _ fun x hx => hall x (List.mem_cons_of_mem _ hx)

/-- Request whose parties list repeats a fresh email. -/
def dupOrderReq : EmailThreadRequest := ⟨"to", ["b@x.com", "b@x.com"], []⟩

/-- C5 counterexample: after one upsert whose parties list repeats an email,
the stored party list is not the first-encounter order of the distinct
emails (the duplicate is appended twice). -/
theorem party_order_duplicate_counterexample :
    ((runRequests [dupOrderReq]).map fun p => p.2.parties.map Party.email)
        = [["b@x.com", "b@x.com"]] ∧
    firstSeenDistinct (allParties [dupOrderReq]) = ["b@x.com"] ∧
    (findConv (runRequests [dupOrderReq]) "to").map (fun v => v.parties.map Party.email)
        ≠ some (firstSeenDistinct (allParties [dupOrderReq])) := by
  decide

/-- C5 (amended): for every nonempty sequence of upserts on one thread id
whose parties lists are internally duplicate-free, the stored party list is
exactly the distinct submitted emails in first-encounter order: existing
positions never change and each batch's new emails are appended in batch
order. -/
theorem party_order_first_seen (tid : String) (reqs : List EmailThreadRequest)
    (hne : reqs ≠ [])
    (hall : ∀ q ∈ reqs, q.thread_id = tid ∧ q.parties.Nodup) :
    (findConv (runRequests reqs) tid).map (fun v => v.parties.map Party.email)
      = some (firstSeenDistinct (allParties reqs)) := by
  cases reqs with
  | nil => exact absurd rfl hne
  | cons q rest =>
    have hq := hall q (List.mem_cons_self _ _)
    have hfnone : findConv [] q.thread_id = none := rfl
    have hfirst : upsertStore [] q = [(tid, create_email_thread_vcon q)] := by
      rw [upsertStore_none hfnone, hq.1]
      rfl
    unfold runRequests
    rw [List.foldl_cons, hfirst,
      store_shape rest tid _ fun p hp => (hall p (List.mem_cons_of_mem _ hp)).1]
    rw [show findConv [(tid, rest.foldl mergeVcon (create_email_thread_vcon q))] tid
        = some (rest.foldl mergeVcon (create_email_thread_vcon q))
      from by simp [findConv]]
    rw [Option.map_some']
    congr 1
    rw [foldl_mergeVcon_emails, create_parties_emails]
    have hnodups : ∀ b ∈ rest.map EmailThreadRequest.parties, b.Nodup := by
      intro b hb
      obtain ⟨p, hp, rfl⟩ := List.mem_map.1 hb
      exact (hall p (List.mem_cons_of_mem _ hp)).2
    rw [batches_foldl_insert _ _ hnodups]
    unfold firstSeenDistinct allParties
    rw [List.map_cons, List.flatten_cons, List.foldl_append]
    rw [show q.parties.foldl insertNew [] = q.parties
      from by rw [← mergeEmails_batch_insert q.parties [] hq.2, mergeEmails_nil_left]]

theorem party_order_first_seen_witness :
    (findConv (runRequests [scenarioReq1, scenarioReq2]) "t1").map
        (fun v => v.parties.map Party.email)
      = some (firstSeenDistinct (allParties [scenarioReq1, scenarioReq2])) :=
  party_order_first_seen "t1" [scenarioReq1, scenarioReq2] (by decide) (by decide)

/-- An aware timestamp carrying a +05:00 offset. -/
def dtOffset : PyDateTime := ⟨2024, 1, 1, 5, 0, 0, 0, some 300⟩

/-- Request carrying the +05:00 timestamp. -/
def offsetReq : EmailThreadRequest := ⟨"tz", ["a@x.com"], [⟨0, "hi", dtOffset⟩]⟩

/-- C4 counterexample: for input 2024-01-01T05:00:00+05:00 the stored start
is 2024-01-01T05:00:00+00:00, not the same-instant UTC normalization
2024-01-01T00:00:00+00:00; the replace-based value denotes a different
instant than the input. -/
theorem start_not_same_instant_counterexample :
    (generate_email_vcon [] offsetReq).2.dialog.map DialogEntry.start
        = ["2024-01-01T05:00:00+00:00"] ∧
    isoformat (utcNormalize dtOffset) = "2024-01-01T00:00:00+00:00" ∧
    (generate_email_vcon [] offsetReq).2.dialog.map DialogEntry.start
        ≠ [isoformat (utcNormalize dtOffset)] ∧
    epochMicros (replaceTzUtc dtOffset) ≠ epochMicros dtOffset := by
  decide

/-- C4 (amended): every stored message's start is the supplied timestamp
with its offset replaced by +00:00 (wall-clock fields preserved, original
offset discarded), serialized as ISO-8601 — which denotes the same instant
as the input exactly when the input is naive or already UTC — and the stored
originator is the supplied originator_index verbatim. -/
theorem start_replace_tz_semantics (req : EmailThreadRequest) (e : VconRecord) :
    ((create_email_thread_vcon req).dialog.map fun d => (d.start, d.originator))
        = (req.dialogs.map fun dlg =>
            (isoformat (replaceTzUtc dlg.last_modified), dlg.originator_index)) ∧
    (((mergeVcon e req).dialog.drop e.dialog.length).map fun d => (d.start, d.originator))
        = ((req.dialogs.filter fun dlg =>
              (dialogKeyIdx e.dialog dlg.body_snippet (normStart dlg)).isNone).map
            fun dlg => (isoformat (replaceTzUtc dlg.last_modified), dlg.originator_index)) ∧
    ∀ dt : PyDateTime, dt.tzOffsetMinutes = some 0 ∨ dt.tzOffsetMinutes = none →
      epochMicros (replaceTzUtc dt) = epochMicros dt := by
  refine ⟨?_, ?_, ?_⟩
  · rw [show (create_email_thread_vcon req).dialog
        = req.dialogs.map fun dlg =>
            ({ type := "text", start := normStart dlg,
               parties := List.range req.parties.length,
               originator := dlg.originator_index, mimetype := "text/plain",
               body := dlg.body_snippet, metadata := none, meta := none } : DialogEntry)
      from rfl]
    rw [List.map_map]
    rfl
  · rw [mergeVcon_dialog, List.drop_left, List.map_map]
    rfl
  · intro dt h
    rcases h with h | h <;>
      simp [epochMicros, replaceTzUtc, naiveMicros, h]

theorem start_replace_tz_semantics_witness :
    ((create_email_thread_vcon scenarioReq1).dialog.map fun d => (d.start, d.originator))
        = [(isoformat (replaceTzUtc dtNaive), 0)] ∧
    epochMicros (replaceTzUtc dtNaive) = epochMicros dtNaive :=
  ⟨by rw [(start_replace_tz_semantics scenarioReq1 wRecord).1]; rfl,
   (start_replace_tz_semantics scenarioReq1 wRecord).2.2 dtNaive (Or.inr rfl)⟩

end VconApp
